import Mathlib

/-!
# Verification of the FigurA11y suggestion-integration engine

A shallow embedding of the core logic of the description editor:

* the ProseMirror/Tiptap document model as seen by this app (a document is a
  sequence of textblocks; each textblock holds inline text nodes),
* `textBetween`-based text extraction around the cursor (completion flow),
* the content-matching accept/reject mutation (`handleEditorAction`),
* the generic async request hook (`useAsyncRequest` / `fetchData`),
* the iterative Q&A round-trip loop (`OpenAIClient.getQA`),
* the transaction-classifying event logger (`useEventLogger`).

Positions follow ProseMirror's addressing: the document's content starts at
position 0; a block occupies `nodeSize = 2 + textLength` positions (opening
token, characters, closing token); characters of a block starting at `pos`
occupy positions `pos+1 .. pos+textLength`.
-/

namespace FigurA11y

/-! ## Document model -/

/-- A ProseMirror inline text node: a run of characters with marks. -/
structure TextNode where
  text : List Char
  marks : List String
  deriving DecidableEq

/-- The block node types relevant to the editor: paragraphs and headings.
Level-6 headings (`<h6>`) are the provisional, AI-generated spans. -/
inductive BlockKind where
  | paragraph
  | heading (level : Nat)
  deriving DecidableEq

/-- A top-level block node of the document. `attrClass` models the `class`
attribute, `marks` the marks attached to the node itself. -/
structure Block where
  kind : BlockKind
  attrClass : Option String
  marks : List String
  content : List TextNode
  deriving DecidableEq

/-- The concatenated text of a block's inline content (ProseMirror
`node.textContent`). -/
def blockText (b : Block) : List Char :=
  (b.content.map TextNode.text).flatten

/-- ProseMirror `node.nodeSize` for a textblock: opening token + characters +
closing token. -/
def nodeSize (b : Block) : Nat :=
  2 + (blockText b).length

/-- Size of the document's content (`doc.content.size`, which the source
reaches as `doc.nodeSize - 2`). -/
def docContentSize (doc : List Block) : Nat :=
  (doc.map nodeSize).sum

/-! ## Text extraction (`doc.textBetween`)

`tbGo` mirrors `Fragment.textBetween` over `nodesBetween` as implemented by
prosemirror-model 1.16 and later (the repo's `@tiptap/pm` requires
prosemirror-model `^1.19`): a block is visited iff it overlaps the half-open
range `[f, t)`; a `first` flag is cleared at the first visited textblock, and
the block separator is emitted before **every** later visited textblock —
whether or not it contributes characters; then the block's characters lying
inside the range are appended.  Every block of this schema is a textblock, so
the separator condition `(node.isLeaf && nodeText) || node.isTextblock` always
holds for visited blocks.  (In ProseMirror the characters are emitted per
inline child with clamped `slice` bounds; since the inline children tile the
block's content, the per-child slices concatenate to the single slice of
`blockText` taken here.) -/
def tbGo (sep : List Char) (f t : Nat) : List Block → Nat → Bool → List Char
  | [], _, _ => []
  | b :: bs, pos, first =>
    if pos < t ∧ f < pos + nodeSize b then
      ((if first then [] else sep) ++ ((blockText b).take (t - (pos + 1))).drop (f - (pos + 1)))
        ++ tbGo sep f t bs (pos + nodeSize b) false
    else
      tbGo sep f t bs (pos + nodeSize b) first

/-- `doc.textBetween(f, t, sep)`. -/
def textBetween (doc : List Block) (f t : Nat) (sep : List Char) : List Char :=
  tbGo sep f t doc 0 true

/-- The `"\n\n"` block separator passed by the completion flow. -/
def nnSep : List Char := ['\n', '\n']

/-- `textBeforeCursor` from the completion `apiCall`:
`cursorPosition ? doc.textBetween(0, cursorPosition, "\n\n") : ""`
(`cursorPosition` equal to `0` is falsy in JS). -/
def textBeforeCursor (doc : List Block) (p : Nat) : List Char :=
  if p = 0 then [] else textBetween doc 0 p nnSep

/-- `textAfterCursor` from the completion `apiCall`:
`cursorPosition ? doc.textBetween(cursorPosition, doc.nodeSize - 2, "\n\n") : ""`. -/
def textAfterCursor (doc : List Block) (p : Nat) : List Char :=
  if p = 0 then [] else textBetween doc p (docContentSize doc) nnSep

/-- The document's plain text: `textBetween` over the whole content with the
`"\n\n"` separator. -/
def plainText (doc : List Block) : List Char :=
  textBetween doc 0 (docContentSize doc) nnSep

/-- Endpoint selection in the completion `apiCall`:
`fetch(description.length ? "/api/completion" : "/api/summary", ...)`
where `description = textBeforeCursor + textAfterCursor`. -/
def completionEndpoint (doc : List Block) (p : Nat) : String :=
  if (textBeforeCursor doc p ++ textAfterCursor doc p).length ≠ 0 then
    "/api/completion"
  else
    "/api/summary"

/-! Specification-side helpers for the text-extraction proofs: `joinSep` is
the closed form of a full `textBetween` pass over a list of block texts with a
given initial `first` flag, and `stAfter` the resulting flag. -/

/-- Closed form of `textBetween` over fully-covered blocks: emit a separator
before each block after the first visited one, then the block's text. -/
def joinSep (sep : List Char) : List (List Char) → Bool → List Char
  | [], _ => []
  | s :: ss, first => ((if first then [] else sep) ++ s) ++ joinSep sep ss false

/-- The `first` flag after fully emitting a list of block texts: it survives
only if no block was visited. -/
def stAfter : List (List Char) → Bool → Bool
  | [], first => first
  | _ :: ss, _ => stAfter ss false

/-! ## Accept/reject flow (`handleEditorAction`) -/

/-- The match condition of the `doc.descendants` callback in
`handleEditorAction`:
`node.type.name === "heading" && node.attrs.level === 6 &&
 node.content.firstChild?.text === localText`. -/
def matchesSuggestion (b : Block) (t : List Char) : Prop :=
  b.kind = BlockKind.heading 6 ∧ b.content.head?.map TextNode.text = some t

instance (b : Block) (t : List Char) : Decidable (matchesSuggestion b t) :=
  inferInstanceAs (Decidable (b.kind = BlockKind.heading 6
    ∧ b.content.head?.map TextNode.text = some t))

/-- The `doc.descendants` scan of `handleEditorAction`: `from`/`to` start at
`(0, 0)` and are overwritten by every matching node's range (returning `false`
from the callback only skips the matched node's children; the traversal of the
remaining siblings continues, so a later match overwrites an earlier one).
Headings occur only at the top level of this schema, and text nodes never
match, so the depth-1 scan is exactly the full traversal. -/
def findRangeGo (t : List Char) : List Block → Nat → Nat × Nat → Nat × Nat
  | [], _, ft => ft
  | b :: bs, pos, ft =>
    if matchesSuggestion b t then
      findRangeGo t bs (pos + nodeSize b) (pos, pos + nodeSize b)
    else
      findRangeGo t bs (pos + nodeSize b) ft

/-- The `(from, to)` range found by the scan. -/
def findRange (doc : List Block) (t : List Char) : Nat × Nat :=
  findRangeGo t doc 0 (0, 0)

/-- The permanent node built on "confirm":
`state.schema.nodes.paragraph.create({class: "generated"},
 state.schema.text(localText), [state.schema.marks.generated.create()])`. -/
def confirmParagraph (t : List Char) : Block :=
  { kind := BlockKind.paragraph
    attrClass := some "generated"
    marks := ["generated"]
    content := [{ text := t, marks := [] }] }

/-- Effect of `tr.delete(from, to)` when `from`/`to` lie on top-level block
boundaries (the only ranges produced by the scan): the blocks whose span is
contained in `[f, t)` are removed, every other block is untouched. -/
def applyDeleteGo (f t : Nat) : List Block → Nat → List Block
  | [], _ => []
  | b :: bs, pos =>
    (if f ≤ pos ∧ pos + nodeSize b ≤ t then [] else [b]) ++ applyDeleteGo f t bs (pos + nodeSize b)

/-- Effect of `tr.replaceRange(from, to, slice)` for a fully closed slice
holding one block, when `from`/`to` lie on top-level block boundaries (the
slice then fits trivially): the covered blocks are replaced by the new block
at position `from`. -/
def applyReplaceGo (f t : Nat) (nb : Block) : List Block → Nat → List Block
  | [], _ => []
  | b :: bs, pos =>
    (if f ≤ pos ∧ pos + nodeSize b ≤ t then (if pos = f then [nb] else []) else [b])
      ++ applyReplaceGo f t nb bs (pos + nodeSize b)

/-- The two popover actions. -/
inductive EditorAction where
  | confirm
  | delete
  deriving DecidableEq

/-- `handleEditorAction`: scan the document for the captured text, and if a
range was found (`from !== to`), dispatch the confirm/delete mutation;
otherwise leave the document unchanged. -/
def handleEditorAction (action : EditorAction) (doc : List Block) (localText : List Char) :
    List Block :=
  if (findRange doc localText).1 ≠ (findRange doc localText).2 then
    match action with
    | EditorAction.confirm =>
      applyReplaceGo (findRange doc localText).1 (findRange doc localText).2
        (confirmParagraph localText) doc 0
    | EditorAction.delete =>
      applyDeleteGo (findRange doc localText).1 (findRange doc localText).2 doc 0
  else
    doc

/-- Whether `handleEditorAction` dispatches a transaction (`from !== to`). -/
def dispatchesTransaction (doc : List Block) (localText : List Char) : Bool :=
  (findRange doc localText).1 ≠ (findRange doc localText).2

/-! ## Async request manager (`useAsyncRequest`) -/

/-- The `{data, loading, error}` state of the hook. -/
structure ReqState (T : Type) where
  data : Option T
  loading : Bool
  error : Option String
  deriving DecidableEq

/-- Observable actions of one `fetchData()` run, in program order. -/
inductive FetchEv (T : Type) where
  | setLoading (b : Bool)
  | setError (e : Option String)
  | callApi (seed : Option T)
  | setData (d : Option T)
  deriving DecidableEq

/-- The single generic error string of `fetchData`. -/
def fetchErrorMessage : String := "An error occurred while fetching the data."

/-- JS `data || undefined`: pass the data through unless it is null or falsy
(`truthy` models JS truthiness of a `T` value). -/
def jsOrUndefined {T : Type} (truthy : T → Bool) : Option T → Option T
  | none => none
  | some d => if truthy d then some d else none

/-- One run of `fetchData()`, given the outcome of the awaited `apiCall`:
`setLoading(true); setError(null); try { const r = await apiCall(data || undefined);
setData(r); } catch { setError(generic); } finally { setLoading(false); }`.
Returns the final state and the ordered list of observable actions. -/
def fetchDataRun {T : Type} (truthy : T → Bool) (s0 : ReqState T) (outcome : Except String T) :
    ReqState T × List (FetchEv T) :=
  let s1 : ReqState T := { s0 with loading := true }
  let s2 : ReqState T := { s1 with error := none }
  let seed := jsOrUndefined truthy s2.data
  match outcome with
  | Except.ok v =>
    ({ s2 with data := some v, loading := false },
      [FetchEv.setLoading true, FetchEv.setError none, FetchEv.callApi seed,
        FetchEv.setData (some v), FetchEv.setLoading false])
  | Except.error _ =>
    ({ s2 with error := some fetchErrorMessage, loading := false },
      [FetchEv.setLoading true, FetchEv.setError none, FetchEv.callApi seed,
        FetchEv.setError (some fetchErrorMessage), FetchEv.setLoading false])

/-- What the hook sees at one render: the caller's dependency array (elements
modelled by reference identity as numbers), the `shouldFetch` flag, and
whether `data` is currently truthy. -/
structure RenderIn where
  deps : List Nat
  shouldFetch : Bool
  dataTruthy : Bool
  deriving DecidableEq

/-- React semantics of `useEffect(() => { if (shouldFetch && !data) fetchData(); },
dependencies)` over a sequence of renders: the effect body runs on the first
render and whenever the dependency array differs element-wise from the
previous render's; `fetchData` is then invoked iff the guard holds.  Returns,
per render, whether `fetchData` was invoked. -/
def autoFetchGo : List RenderIn → Option (List Nat) → List Bool
  | [], _ => []
  | r :: rs, prev =>
    ((!(prev == some r.deps)) && r.shouldFetch && !r.dataTruthy) :: autoFetchGo rs (some r.deps)

/-- Automatic-fetch decisions over a full render sequence (no previous render
before the first). -/
def autoFetchFires (trace : List RenderIn) : List Bool :=
  autoFetchGo trace none

/-- The dependency array of the render preceding the one after `xs`, if any
(`prev` is the value before `xs`). -/
def lastDeps (xs : List RenderIn) (prev : Option (List Nat)) : Option (List Nat) :=
  match xs.getLast? with
  | some r => some r.deps
  | none => prev

/-! ## Q&A round-trip loop (`OpenAIClient.getQA`) -/

/-- Chat messages as `getQA` manipulates them.  An assistant message carries
an optional function call `(name, arguments)`; a `functionResult` message is
the `role: "function"` record pushed after a parsed call. -/
inductive ChatMessage where
  | system (content : String)
  | user (content : String)
  | assistant (functionCall : Option (String × String))
  | functionResult (name : String) (content : String)
  deriving DecidableEq

/-- The initial `messageList` of `getQA`: rewrite the system message of the
history to the current system prompt and append the user prompt, or start a
fresh two-message list. -/
def initialMessages (systemPrompt prompt : String) :
    Option (List ChatMessage) → List ChatMessage
  | some history =>
    (history.map fun m =>
      match m with
      | ChatMessage.system _ => ChatMessage.system systemPrompt
      | m => m) ++ [ChatMessage.user prompt]
  | none => [ChatMessage.system systemPrompt, ChatMessage.user prompt]

/-- The `while (responses.length < n_qa)` loop of `getQA`.  Each iteration is
one model round trip (`n: 1`, so one structured record per trip), modelled by
the oracle giving the `i`-th response's function call, if any.  On a function
call, parse it, push the assistant message and the function-result message
(content `JSON.stringify(parsedArgs)`), and keep the pair; on a response
without a function call, break.  Returns the collected pairs, the final
message list, and the number of round trips issued. -/
def getQAGo {α : Type} (oracle : Nat → Option (String × String)) (parseQA : String → α)
    (stringifyQA : α → String) :
    Nat → Nat → List ChatMessage → List α × List ChatMessage × Nat
  | 0, _, msgs => ([], msgs, 0)
  | rem + 1, i, msgs =>
    match oracle i with
    | some (nm, args) =>
      let next := getQAGo oracle parseQA stringifyQA rem (i + 1)
        (msgs ++ [ChatMessage.assistant (some (nm, args)),
          ChatMessage.functionResult nm (stringifyQA (parseQA args))])
      (parseQA args :: next.1, next.2.1, next.2.2 + 1)
    | none => ([], msgs, 1)

/-- `getQA`: build the initial message list and run the loop for up to `n_qa`
pairs, starting from round trip 0. -/
def getQA {α : Type} (oracle : Nat → Option (String × String)) (parseQA : String → α)
    (stringifyQA : α → String) (systemPrompt prompt : String)
    (history : Option (List ChatMessage)) (n_qa : Nat) :
    List α × List ChatMessage × Nat :=
  getQAGo oracle parseQA stringifyQA n_qa 0 (initialMessages systemPrompt prompt history)

/-- The arguments string of an optional function call (unused `""` default for
the `none` case, which the specification functions never reach). -/
def argsOfCall : Option (String × String) → String
  | some (_, a) => a
  | none => ""

/-- Specification: the pairs produced by rounds `i, i+1, …, i+n-1`. -/
def qaListSpec {α : Type} (oracle : Nat → Option (String × String)) (parseQA : String → α) :
    Nat → Nat → List α
  | _, 0 => []
  | i, n + 1 => parseQA (argsOfCall (oracle i)) :: qaListSpec oracle parseQA (i + 1) n

/-- Specification: the two messages appended by round `i` (empty if the round
returned no function call). -/
def roundMessages {α : Type} (oracle : Nat → Option (String × String)) (parseQA : String → α)
    (stringifyQA : α → String) (i : Nat) : List ChatMessage :=
  match oracle i with
  | some (nm, args) =>
    [ChatMessage.assistant (some (nm, args)),
      ChatMessage.functionResult nm (stringifyQA (parseQA args))]
  | none => []

/-- Specification: the messages appended by rounds `i, …, i+n-1`. -/
def msgsSpec {α : Type} (oracle : Nat → Option (String × String)) (parseQA : String → α)
    (stringifyQA : α → String) : Nat → Nat → List ChatMessage
  | _, 0 => []
  | i, n + 1 => roundMessages oracle parseQA stringifyQA i ++ msgsSpec oracle parseQA stringifyQA (i + 1) n

/-! ## Event logger (`useEventLogger`) -/

/-- A node of an inserted slice, as inspected by the paste branch
(`node.textContent`). -/
structure PNode where
  textContent : List Char
  deriving DecidableEq

/-- A transaction step as the logger's untyped (`step: any`) accesses see it.
`ReplaceStep`/`ReplaceAroundStep` carry `from`, `to` and a slice (possibly
empty: `some []`, whose content size is 0, since every ProseMirror node has
positive size); `AddMarkStep`/`RemoveMarkStep` carry `from` and `to` but no
`slice` property (`none`); steps carrying no `from`/`to` at all (attribute
steps) are `none` in those fields. -/
structure EditStep where
  fromPos : Option Nat
  toPos : Option Nat
  slice : Option (List PNode)
  deriving DecidableEq

/-- JS `step.slice?.content?.size === 0`: false when there is no slice
(`undefined === 0`), else content emptiness. -/
def sliceContentSizeZero : Option (List PNode) → Bool
  | some l => l.isEmpty
  | none => false

/-- JS `step.slice?.content?.size > 0`: false when there is no slice
(`undefined > 0`), else content non-emptiness. -/
def sliceContentSizePos : Option (List PNode) → Bool
  | some l => !l.isEmpty
  | none => false

/-- A transaction as the logger sees it: whether the document changed, whether
the `"paste"` metadata flag is set, and the atomic steps. -/
structure Transaction where
  docChanged : Bool
  pasteMeta : Bool
  steps : List EditStep
  deriving DecidableEq

/-- Payload of a logged event. -/
inductive EvData where
  | keyVal (key : String)
  | textVal (text : List Char)
  deriving DecidableEq

/-- An event before the identifying fields are attached (`InitialEvent` minus
the wall-clock time). -/
structure InitialEvent where
  event_type : String
  event_data : EvData
  deriving DecidableEq

/-- The per-step classification of the non-paste branch, mirroring the
if/else-if chain:
`step.from === step.to && step.from !== undefined` ⇒ `key_press`("Input");
`step.from !== step.to && step.slice?.content?.size === 0` ⇒
`key_press`("Backspace or Delete");
`step.from !== step.to && step.slice?.content?.size > 0` ⇒
`key_press`("Input"); any other step — in particular a mark step, which
carries no slice — emits nothing. -/
def classifyStep (st : EditStep) : List InitialEvent :=
  if st.fromPos = st.toPos ∧ st.fromPos ≠ none then
    [⟨"key_press", EvData.keyVal "Input"⟩]
  else if st.fromPos ≠ st.toPos ∧ sliceContentSizeZero st.slice = true then
    [⟨"key_press", EvData.keyVal "Backspace or Delete"⟩]
  else if st.fromPos ≠ st.toPos ∧ sliceContentSizePos st.slice = true then
    [⟨"key_press", EvData.keyVal "Input"⟩]
  else
    []

/-- The `update` handler body: nothing unless the document changed; on a paste
transaction, look at the last step's slice (`lastStep?.slice?.content?.size >
0`), take its first node, and log one `paste_action` with that node's text if
the text is non-empty; otherwise log the per-step `key_press` events. -/
def classifyTransaction (tx : Transaction) : List InitialEvent :=
  if tx.docChanged then
    if tx.pasteMeta then
      match tx.steps.getLast? with
      | none => []
      | some lastStep =>
        match lastStep.slice with
        | none => []
        | some l =>
          if l.isEmpty then []
          else
            match l.head? with
            | none => []
            | some node =>
              if node.textContent.isEmpty then []
              else [⟨"paste_action", EvData.textVal node.textContent⟩]
    else
      (tx.steps.map classifyStep).flatten
  else
    []

/-- A fully tagged event record as forwarded to the persistence client. -/
structure EventRec where
  user_id : Nat
  figure_id : Nat
  description_id : Nat
  study_session : Bool
  condition : String
  event_type : String
  event_data : EvData
  deriving DecidableEq

/-- `makeEvent`: attach user/figure/description ids and the condition label;
`study_session` is hardcoded to `true`. -/
def makeEvent (uid fid did : Nat) (condition : String) (e : InitialEvent) : EventRec :=
  { user_id := uid
    figure_id := fid
    description_id := did
    study_session := true
    condition := condition
    event_type := e.event_type
    event_data := e.event_data }

/-- `useEventLogger`: if any of `user?.id`, `figure?.id`, `description?.id` is
missing (or falsy, i.e. `0`) or there is no editor, return `null` without
subscribing — no events are ever emitted.  Otherwise the subscribed handler
maps every classified event through `makeEvent`. -/
def useEventLogger (uid fid did : Option Nat) (editorPresent : Bool) (condition : String) :
    Option (Transaction → List EventRec) :=
  match uid, fid, did with
  | some u, some f, some d =>
    if u ≠ 0 ∧ f ≠ 0 ∧ d ≠ 0 ∧ editorPresent then
      some fun tx => (classifyTransaction tx).map (makeEvent u f d condition)
    else
      none
  | _, _, _ => none

/-! ## Concrete instances used by counterexamples and witnesses -/

/-- A paragraph block with text `"ab"`. -/
def pAB : Block :=
  { kind := BlockKind.paragraph, attrClass := none, marks := [], content := [⟨['a', 'b'], []⟩] }

/-- A paragraph block with text `"cd"`. -/
def pCD : Block :=
  { kind := BlockKind.paragraph, attrClass := none, marks := [], content := [⟨['c', 'd'], []⟩] }

/-- A provisional span: a level-6 heading with text `"x"`. -/
def h6x : Block :=
  { kind := BlockKind.heading 6, attrClass := none, marks := [], content := [⟨['x'], []⟩] }

/-- A user-authored paragraph with text `"m"`. -/
def pMid : Block :=
  { kind := BlockKind.paragraph, attrClass := none, marks := [], content := [⟨['m'], []⟩] }

/-- Two renders: the dependency array changes by reference between them, but at
the second render `data` is already non-empty. -/
def staleDataTrace : List RenderIn :=
  [{ deps := [0], shouldFetch := true, dataTruthy := false },
    { deps := [1], shouldFetch := true, dataTruthy := true }]

/-- A paste transaction whose single step inserts one node with empty text
content (e.g. a leaf block): the inserted content is non-empty, the text is
empty. -/
def emptyTextPaste : Transaction :=
  { docChanged := true
    pasteMeta := true
    steps := [{ fromPos := some 0, toPos := some 0, slice := some [{ textContent := [] }] }] }

/-- A document-changing, non-paste transaction whose single step is a mark
step (`AddMarkStep`/`RemoveMarkStep`, e.g. toggling bold over a selection):
it carries a range but no slice. -/
def txMark : Transaction :=
  { docChanged := true
    pasteMeta := false
    steps := [{ fromPos := some 1, toPos := some 3, slice := none }] }

/-- An oracle that answers the first two round trips with a function call and
then stops producing structured responses. -/
def twoCallOracle : Nat → Option (String × String) :=
  fun i => if i < 2 then some ("record_qa", "args" ++ toString i) else none

/-- A non-paste transaction with one step of each classification shape:
an insertion at a point, a pure deletion of a range, and a range replacement. -/
def txKeys : Transaction :=
  { docChanged := true
    pasteMeta := false
    steps := [{ fromPos := some 1, toPos := some 1, slice := some [{ textContent := ['a'] }] },
      { fromPos := some 1, toPos := some 2, slice := some [] },
      { fromPos := some 1, toPos := some 2, slice := some [{ textContent := ['b'] }] }] }

/-- A paste transaction inserting a single node with text `"hi"`. -/
def txPaste : Transaction :=
  { docChanged := true
    pasteMeta := true
    steps := [{ fromPos := some 0, toPos := some 0, slice := some [{ textContent := ['h', 'i'] }] }] }

/-! # Theorems -/

/-! ## Basic size lemmas -/

theorem nodeSize_eq (b : Block) : nodeSize b = 2 + (blockText b).length := rfl

theorem nodeSize_pos (b : Block) : 0 < nodeSize b := by
  rw [nodeSize_eq]; omega

theorem docContentSize_nil : docContentSize [] = 0 := rfl

theorem docContentSize_cons (b : Block) (bs : List Block) :
    docContentSize (b :: bs) = nodeSize b + docContentSize bs := by
  simp [docContentSize]

theorem docContentSize_append (xs ys : List Block) :
    docContentSize (xs ++ ys) = docContentSize xs + docContentSize ys := by
  simp [docContentSize]

/-! ## `textBetween` structure lemmas -/

theorem tbGo_nil (sep : List Char) (f t pos : Nat) (first : Bool) :
    tbGo sep f t [] pos first = [] := rfl

theorem tbGo_cons (sep : List Char) (f t : Nat) (b : Block) (bs : List Block) (pos : Nat)
    (first : Bool) :
    tbGo sep f t (b :: bs) pos first =
      if pos < t ∧ f < pos + nodeSize b then
        ((if first then [] else sep) ++ ((blockText b).take (t - (pos + 1))).drop (f - (pos + 1)))
          ++ tbGo sep f t bs (pos + nodeSize b) false
      else
        tbGo sep f t bs (pos + nodeSize b) first := rfl

/-- Blocks entirely at or beyond the range's end are never visited. -/
theorem tbGo_stop (sep : List Char) (f t : Nat) :
    ∀ (bs : List Block) (pos : Nat) (first : Bool), t ≤ pos → tbGo sep f t bs pos first = []
  | [], _, _, _ => rfl
  | b :: bs, pos, first, h => by
    rw [tbGo_cons, if_neg (by omega : ¬(pos < t ∧ f < pos + nodeSize b))]
    exact tbGo_stop sep f t bs (pos + nodeSize b) first (by omega)

/-- Blocks entirely before the range's start are skipped without touching the
`first` flag. -/
theorem tbGo_skip_low (sep : List Char) (f t : Nat) :
    ∀ (xs rest : List Block) (pos : Nat) (first : Bool),
      pos + docContentSize xs ≤ f →
      tbGo sep f t (xs ++ rest) pos first = tbGo sep f t rest (pos + docContentSize xs) first
  | [], rest, pos, first, _ => by simp [docContentSize_nil]
  | x :: xs, rest, pos, first, h => by
    rw [docContentSize_cons] at h
    rw [List.cons_append, tbGo_cons, if_neg (by omega : ¬(pos < t ∧ f < pos + nodeSize x))]
    rw [tbGo_skip_low sep f t xs rest (pos + nodeSize x) first (by omega)]
    rw [docContentSize_cons, Nat.add_assoc]

/-- A run of blocks wholly inside the range contributes its full separated
join, and the `first` flag evolves as `stAfter` describes. -/
theorem tbGo_inside (sep : List Char) (f t : Nat) :
    ∀ (xs rest : List Block) (pos : Nat) (first : Bool),
      f ≤ pos → pos + docContentSize xs ≤ t →
      tbGo sep f t (xs ++ rest) pos first =
        joinSep sep (xs.map blockText) first
          ++ tbGo sep f t rest (pos + docContentSize xs) (stAfter (xs.map blockText) first)
  | [], rest, pos, first, _, _ => by simp [docContentSize_nil, joinSep, stAfter]
  | x :: xs, rest, pos, first, hf, ht => by
    rw [docContentSize_cons] at ht
    have hn := nodeSize_eq x
    rw [List.cons_append, tbGo_cons, if_pos (by omega : pos < t ∧ f < pos + nodeSize x)]
    have hslice : (((blockText x).take (t - (pos + 1))).drop (f - (pos + 1))) = blockText x := by
      rw [(by omega : f - (pos + 1) = 0), List.drop_zero,
        List.take_of_length_le (by omega : (blockText x).length ≤ t - (pos + 1))]
    rw [hslice,
      tbGo_inside sep f t xs rest (pos + nodeSize x) false (by omega) (by omega)]
    simp [joinSep, stAfter, docContentSize_cons, List.append_assoc, Nat.add_assoc]

/-- A full `textBetween` pass is the separated join of all block texts. -/
theorem textBetween_full (doc : List Block) (sep : List Char) :
    textBetween doc 0 (docContentSize doc) sep = joinSep sep (doc.map blockText) true := by
  unfold textBetween
  have h := tbGo_inside sep 0 (docContentSize doc) doc [] 0 true (Nat.le_refl 0) (by omega)
  simpa [tbGo_nil] using h

theorem joinSep_append (sep : List Char) :
    ∀ (as bs : List (List Char)) (first : Bool),
      joinSep sep (as ++ bs) first = joinSep sep as first ++ joinSep sep bs (stAfter as first)
  | [], bs, first => by simp [joinSep, stAfter]
  | a :: as, bs, first => by
    simp [joinSep, stAfter, joinSep_append sep as bs false, List.append_assoc]

/-- `textBetween(0, p)` at a cursor inside block `b` (offset `c` into its
text): the preceding blocks in full, a separator before `b` if `b` is not the
first visited block, then the first `c` characters of `b`. -/
theorem textBefore_split (xs ys : List Block) (b : Block) (c : Nat)
    (hc : c ≤ (blockText b).length) :
    textBetween (xs ++ b :: ys) 0 (docContentSize xs + 1 + c) nnSep =
      joinSep nnSep (xs.map blockText) true
        ++ ((if stAfter (xs.map blockText) true then [] else nnSep)
          ++ (blockText b).take c) := by
  unfold textBetween
  rw [tbGo_inside nnSep 0 (docContentSize xs + 1 + c) xs (b :: ys) 0 true (Nat.le_refl 0)
    (by omega), Nat.zero_add]
  have hn := nodeSize_eq b
  rw [tbGo_cons, if_pos (by omega : docContentSize xs < docContentSize xs + 1 + c ∧
    0 < docContentSize xs + nodeSize b)]
  rw [(by omega : docContentSize xs + 1 + c - (docContentSize xs + 1) = c),
    (by omega : 0 - (docContentSize xs + 1) = 0), List.drop_zero]
  rw [tbGo_stop nnSep 0 (docContentSize xs + 1 + c) ys (docContentSize xs + nodeSize b)
    false (by omega)]
  simp [List.append_assoc]

/-- `textBetween(p, end)` at a cursor inside block `b` (offset `c`): block `b`
is always visited (clearing the `first` flag even when it contributes no
characters), so the rest of the text of `b` is followed by the remaining blocks
each preceded by a separator. -/
theorem textAfter_split (xs ys : List Block) (b : Block) (c : Nat)
    (hc : c ≤ (blockText b).length) :
    textBetween (xs ++ b :: ys) (docContentSize xs + 1 + c) (docContentSize (xs ++ b :: ys))
      nnSep =
      (blockText b).drop c ++ joinSep nnSep (ys.map blockText) false := by
  unfold textBetween
  have hn := nodeSize_eq b
  have hS : docContentSize (xs ++ b :: ys)
      = docContentSize xs + nodeSize b + docContentSize ys := by
    rw [docContentSize_append, docContentSize_cons]; omega
  rw [tbGo_skip_low nnSep (docContentSize xs + 1 + c) (docContentSize (xs ++ b :: ys)) xs
    (b :: ys) 0 true (by omega), Nat.zero_add]
  rw [tbGo_cons, if_pos (by omega : docContentSize xs < docContentSize (xs ++ b :: ys) ∧
    docContentSize xs + 1 + c < docContentSize xs + nodeSize b)]
  rw [List.take_of_length_le
    (by omega : (blockText b).length ≤ docContentSize (xs ++ b :: ys) - (docContentSize xs + 1)),
    (by omega : docContentSize xs + 1 + c - (docContentSize xs + 1) = c)]
  have h2 := tbGo_inside nnSep (docContentSize xs + 1 + c) (docContentSize (xs ++ b :: ys)) ys []
    (docContentSize xs + nodeSize b) false (by omega) (by omega)
  rw [List.append_nil] at h2
  rw [h2]
  simp [tbGo_nil]

/-- The full plain text around one distinguished block. -/
theorem plainText_split (xs ys : List Block) (b : Block) :
    plainText (xs ++ b :: ys) =
      joinSep nnSep (xs.map blockText) true
        ++ ((if stAfter (xs.map blockText) true then [] else nnSep)
          ++ (blockText b ++ joinSep nnSep (ys.map blockText) false)) := by
  unfold plainText
  rw [textBetween_full, List.map_append, List.map_cons, joinSep_append]
  simp [joinSep, List.append_assoc]

/-! ## C3: cursor split vs. plain text -/

/-- The two cursor halves always reconstruct the plain text: the block holding
the cursor is visited by both halves, and in the after-half it clears the
`first` flag even when the cursor sits at the end of its text, so every later
block still receives its separator. -/
theorem textSplit_eq (xs ys : List Block) (b : Block) (c : Nat)
    (hc : c ≤ (blockText b).length) :
    textBeforeCursor (xs ++ b :: ys) (docContentSize xs + 1 + c)
      ++ textAfterCursor (xs ++ b :: ys) (docContentSize xs + 1 + c) =
      plainText (xs ++ b :: ys) := by
  unfold textBeforeCursor textAfterCursor
  rw [if_neg (by omega : ¬(docContentSize xs + 1 + c = 0)),
    if_neg (by omega : ¬(docContentSize xs + 1 + c = 0))]
  rw [textBefore_split xs ys b c hc, textAfter_split xs ys b c hc, plainText_split xs ys b]
  simp only [List.append_assoc]
  rw [← List.append_assoc (List.take c (blockText b)) (List.drop c (blockText b)),
    List.take_append_drop]

/-- C3: for any document and any cursor position — offset `c` into the text of
block `b`, with blocks `xs` before and `ys` after — `textBeforeCursor`
concatenated with `textAfterCursor` equals the plain text of the document
exactly. -/
theorem textSplit_reconstructs_plainText (xs ys : List Block) (b : Block) (c : Nat)
    (hc : c ≤ (blockText b).length) :
    textBeforeCursor (xs ++ b :: ys) (docContentSize xs + 1 + c)
      ++ textAfterCursor (xs ++ b :: ys) (docContentSize xs + 1 + c) =
      plainText (xs ++ b :: ys) :=
  textSplit_eq xs ys b c hc

/-- Witness: C3 at the two-paragraph document `"ab"`, `"cd"` with the cursor
at position 3, the end of the text of the first paragraph: the halves give
`"ab" ++ "\n\ncd"`, exactly the plain text. -/
theorem textSplit_witness :
    textBeforeCursor [pAB, pCD] 3 ++ textAfterCursor [pAB, pCD] 3 = plainText [pAB, pCD] :=
  textSplit_reconstructs_plainText [] [pCD] pAB 2 (by decide)

/-! ## C4: endpoint choice -/

theorem stAfter_false : ∀ (ts : List (List Char)), stAfter ts false = false
  | [] => rfl
  | _ :: ss => stAfter_false ss

theorem stAfter_cons (s : List Char) (ss : List (List Char)) (first : Bool) :
    stAfter (s :: ss) first = stAfter ss false := rfl

/-- The plain text of a single-block document is the text of that block. -/
theorem plainText_single (b : Block) : plainText [b] = blockText b := by
  have h := plainText_split [] [] b
  simpa [joinSep, stAfter] using h

/-- Any document of two or more blocks has non-empty plain text: a block
separator is emitted between consecutive visited textblocks even when their
texts are empty. -/
theorem plainText_ne_nil (xs ys : List Block) (b : Block) (h : xs ≠ [] ∨ ys ≠ []) :
    plainText (xs ++ b :: ys) ≠ [] := by
  rw [plainText_split]
  apply List.ne_nil_of_length_pos
  rcases h with h | h
  · cases xs with
    | nil => exact absurd rfl h
    | cons x xs' =>
      have hst : stAfter ((x :: xs').map blockText) true = false := by
        rw [List.map_cons, stAfter_cons, stAfter_false]
      rw [hst]
      simp [nnSep]
  · cases ys with
    | nil => exact absurd rfl h
    | cons y ys' =>
      simp [joinSep, stAfter, nnSep]

/-- C4 (amended): at any cursor position, the completion flow posts to
`"/api/completion"` iff the reconstructed description
(`textBeforeCursor + textAfterCursor`) is non-empty — which, since the two
halves reconstruct the plain text and any two blocks are joined by `"\n\n"`,
holds unless the document consists of a single block with empty text.  It is
not equivalent to `textBeforeCursor` alone being non-empty, as the original
claim states (see the counterexample). -/
theorem completionEndpoint_iff (xs ys : List Block) (b : Block) (c : Nat)
    (hc : c ≤ (blockText b).length) :
    (completionEndpoint (xs ++ b :: ys) (docContentSize xs + 1 + c) = "/api/completion"
      ↔ ¬(xs = [] ∧ ys = [] ∧ blockText b = [])) := by
  have hsplit := textSplit_eq xs ys b c hc
  unfold completionEndpoint
  rw [hsplit]
  by_cases hni : xs = [] ∧ ys = [] ∧ blockText b = []
  · obtain ⟨hx, hy, htb⟩ := hni
    subst hx
    subst hy
    rw [if_neg (by simp [plainText_single, htb])]
    constructor
    · intro habs
      exact absurd habs (by decide)
    · intro hn
      exact absurd ⟨rfl, rfl, htb⟩ hn
  · have hne : plainText (xs ++ b :: ys) ≠ [] := by
      rcases Decidable.em (xs = []) with hx | hx
      · rcases Decidable.em (ys = []) with hy | hy
        · subst hx
          subst hy
          have htb : blockText b ≠ [] := fun hb => hni ⟨rfl, rfl, hb⟩
          simp only [List.nil_append]
          rw [plainText_single]
          exact htb
        · exact plainText_ne_nil xs ys b (Or.inr hy)
      · exact plainText_ne_nil xs ys b (Or.inl hx)
    rw [if_pos (by have := List.length_pos.mpr hne; omega)]
    exact iff_of_true rfl hni

/-- C4 counterexample: a document with text `"ab"` and the cursor at its
start.  `textBeforeCursor` is empty, yet the request goes to
`"/api/completion"` (the code tests `description.length`, the length of
before-plus-after) — contradicting "continuation iff `textBefore` is
non-empty". -/
theorem completionEndpoint_counterexample :
    textBeforeCursor [pAB] 1 = [] ∧ completionEndpoint [pAB] 1 = "/api/completion" := by
  decide

/-- Witness: the amended C4 theorem at a concrete two-paragraph document. -/
theorem completionEndpoint_witness :
    completionEndpoint [pAB, pCD] 2 = "/api/completion"
      ↔ ¬(([] : List Block) = [] ∧ [pCD] = [] ∧ blockText pAB = []) :=
  completionEndpoint_iff [] [pCD] pAB 1 (by decide)

/-! ## Accept/reject: scan and mutation lemmas -/

theorem findRangeGo_cons (t : List Char) (b : Block) (bs : List Block) (pos : Nat)
    (ft : Nat × Nat) :
    findRangeGo t (b :: bs) pos ft =
      if matchesSuggestion b t then
        findRangeGo t bs (pos + nodeSize b) (pos, pos + nodeSize b)
      else
        findRangeGo t bs (pos + nodeSize b) ft := rfl

/-- A run of non-matching blocks leaves the recorded range untouched. -/
theorem findRangeGo_no_match (t : List Char) :
    ∀ (bs : List Block) (pos : Nat) (ft : Nat × Nat),
      (∀ b ∈ bs, ¬ matchesSuggestion b t) → findRangeGo t bs pos ft = ft
  | [], _, _, _ => rfl
  | b :: bs, pos, ft, h => by
    rw [findRangeGo_cons, if_neg (h b (List.mem_cons_self b bs))]
    exact findRangeGo_no_match t bs (pos + nodeSize b) ft
      (fun x hx => h x (List.mem_cons_of_mem b hx))

/-- The scan records the range of the **last** matching block: every match
overwrites the recorded range and the traversal continues. -/
theorem findRangeGo_last (t : List Char) (b : Block) (hb : matchesSuggestion b t) :
    ∀ (xs ys : List Block) (pos : Nat) (ft : Nat × Nat),
      (∀ y ∈ ys, ¬ matchesSuggestion y t) →
      findRangeGo t (xs ++ b :: ys) pos ft =
        (pos + docContentSize xs, pos + docContentSize xs + nodeSize b)
  | [], ys, pos, ft, hys => by
    rw [List.nil_append, findRangeGo_cons, if_pos hb,
      findRangeGo_no_match t ys (pos + nodeSize b) _ hys, docContentSize_nil]
    simp
  | x :: xs, ys, pos, ft, hys => by
    rw [List.cons_append, findRangeGo_cons, docContentSize_cons]
    by_cases hx : matchesSuggestion x t
    · rw [if_pos hx, findRangeGo_last t b hb xs ys (pos + nodeSize x) _ hys]
      simp [Nat.add_assoc]
    · rw [if_neg hx, findRangeGo_last t b hb xs ys (pos + nodeSize x) _ hys]
      simp [Nat.add_assoc]

theorem findRange_no_match (doc : List Block) (t : List Char)
    (h : ∀ b ∈ doc, ¬ matchesSuggestion b t) : findRange doc t = (0, 0) :=
  findRangeGo_no_match t doc 0 (0, 0) h

theorem findRange_last (xs ys : List Block) (b : Block) (t : List Char)
    (hb : matchesSuggestion b t) (hys : ∀ y ∈ ys, ¬ matchesSuggestion y t) :
    findRange (xs ++ b :: ys) t = (docContentSize xs, docContentSize xs + nodeSize b) := by
  unfold findRange
  rw [findRangeGo_last t b hb xs ys 0 (0, 0) hys]
  simp

theorem applyDeleteGo_cons (f t : Nat) (b : Block) (bs : List Block) (pos : Nat) :
    applyDeleteGo f t (b :: bs) pos =
      (if f ≤ pos ∧ pos + nodeSize b ≤ t then [] else [b])
        ++ applyDeleteGo f t bs (pos + nodeSize b) := rfl

theorem applyReplaceGo_cons (f t : Nat) (nb b : Block) (bs : List Block) (pos : Nat) :
    applyReplaceGo f t nb (b :: bs) pos =
      (if f ≤ pos ∧ pos + nodeSize b ≤ t then (if pos = f then [nb] else []) else [b])
        ++ applyReplaceGo f t nb bs (pos + nodeSize b) := rfl

/-- Blocks lying entirely beyond the deleted range are kept. -/
theorem applyDeleteGo_keep (f t : Nat) :
    ∀ (bs : List Block) (pos : Nat), t ≤ pos → applyDeleteGo f t bs pos = bs
  | [], _, _ => rfl
  | b :: bs, pos, h => by
    have hs := nodeSize_pos b
    rw [applyDeleteGo_cons, if_neg (by omega : ¬(f ≤ pos ∧ pos + nodeSize b ≤ t)),
      applyDeleteGo_keep f t bs (pos + nodeSize b) (by omega)]
    rfl

theorem applyReplaceGo_keep (f t : Nat) (nb : Block) :
    ∀ (bs : List Block) (pos : Nat), t ≤ pos → applyReplaceGo f t nb bs pos = bs
  | [], _, _ => rfl
  | b :: bs, pos, h => by
    have hs := nodeSize_pos b
    rw [applyReplaceGo_cons, if_neg (by omega : ¬(f ≤ pos ∧ pos + nodeSize b ≤ t)),
      applyReplaceGo_keep f t nb bs (pos + nodeSize b) (by omega)]
    rfl

/-- Deleting the exact span of block `b` removes exactly `b`. -/
theorem applyDeleteGo_spec (b : Block) :
    ∀ (xs ys : List Block) (pos : Nat),
      applyDeleteGo (pos + docContentSize xs) (pos + docContentSize xs + nodeSize b)
        (xs ++ b :: ys) pos = xs ++ ys
  | [], ys, pos => by
    rw [docContentSize_nil, Nat.add_zero, List.nil_append, applyDeleteGo_cons,
      if_pos ⟨Nat.le_refl pos, Nat.le_refl _⟩,
      applyDeleteGo_keep _ _ ys (pos + nodeSize b) (Nat.le_refl _)]
  | x :: xs, ys, pos => by
    have hx := nodeSize_pos x
    rw [List.cons_append, docContentSize_cons, applyDeleteGo_cons,
      if_neg (by omega : ¬(pos + (nodeSize x + docContentSize xs) ≤ pos
        ∧ pos + nodeSize x ≤ pos + (nodeSize x + docContentSize xs) + nodeSize b))]
    rw [(by omega : pos + (nodeSize x + docContentSize xs)
      = (pos + nodeSize x) + docContentSize xs)]
    rw [applyDeleteGo_spec b xs ys (pos + nodeSize x)]
    rfl

/-- Replacing the exact span of block `b` replaces exactly `b` with the new
block. -/
theorem applyReplaceGo_spec (b nb : Block) :
    ∀ (xs ys : List Block) (pos : Nat),
      applyReplaceGo (pos + docContentSize xs) (pos + docContentSize xs + nodeSize b) nb
        (xs ++ b :: ys) pos = xs ++ nb :: ys
  | [], ys, pos => by
    rw [docContentSize_nil, Nat.add_zero, List.nil_append, applyReplaceGo_cons,
      if_pos ⟨Nat.le_refl pos, Nat.le_refl _⟩, if_pos rfl,
      applyReplaceGo_keep _ _ nb ys (pos + nodeSize b) (Nat.le_refl _)]
    rfl
  | x :: xs, ys, pos => by
    have hx := nodeSize_pos x
    rw [List.cons_append, docContentSize_cons, applyReplaceGo_cons,
      if_neg (by omega : ¬(pos + (nodeSize x + docContentSize xs) ≤ pos
        ∧ pos + nodeSize x ≤ pos + (nodeSize x + docContentSize xs) + nodeSize b))]
    rw [(by omega : pos + (nodeSize x + docContentSize xs)
      = (pos + nodeSize x) + docContentSize xs)]
    rw [applyReplaceGo_spec b nb xs ys (pos + nodeSize x)]
    rfl

/-- A wholly unmatched document is returned unchanged, with no dispatch. -/
theorem handleEditorAction_no_match (action : EditorAction) (doc : List Block) (t : List Char)
    (h : ∀ b ∈ doc, ¬ matchesSuggestion b t) : handleEditorAction action doc t = doc := by
  unfold handleEditorAction
  rw [findRange_no_match doc t h]
  simp

theorem handleEditorAction_confirm_eq (xs ys : List Block) (b : Block) (t : List Char)
    (hb : matchesSuggestion b t) (hys : ∀ y ∈ ys, ¬ matchesSuggestion y t) :
    handleEditorAction EditorAction.confirm (xs ++ b :: ys) t
      = xs ++ confirmParagraph t :: ys := by
  unfold handleEditorAction
  rw [findRange_last xs ys b t hb hys]
  have hs := nodeSize_pos b
  rw [if_pos (by omega : ¬(docContentSize xs, docContentSize xs + nodeSize b).1
    = (docContentSize xs, docContentSize xs + nodeSize b).2)]
  have h := applyReplaceGo_spec b (confirmParagraph t) xs ys 0
  simpa using h

theorem handleEditorAction_delete_eq (xs ys : List Block) (b : Block) (t : List Char)
    (hb : matchesSuggestion b t) (hys : ∀ y ∈ ys, ¬ matchesSuggestion y t) :
    handleEditorAction EditorAction.delete (xs ++ b :: ys) t = xs ++ ys := by
  unfold handleEditorAction
  rw [findRange_last xs ys b t hb hys]
  have hs := nodeSize_pos b
  rw [if_pos (by omega : ¬(docContentSize xs, docContentSize xs + nodeSize b).1
    = (docContentSize xs, docContentSize xs + nodeSize b).2)]
  have h := applyDeleteGo_spec b xs ys 0
  simpa using h

theorem confirmParagraph_no_match (t : List Char) : ¬ matchesSuggestion (confirmParagraph t) t :=
  fun h => BlockKind.noConfusion h.1

theorem dispatchesTransaction_no_match (doc : List Block) (t : List Char)
    (h : ∀ b ∈ doc, ¬ matchesSuggestion b t) : dispatchesTransaction doc t = false := by
  unfold dispatchesTransaction
  rw [findRange_no_match doc t h]
  rfl

/-! ## C1: accept, then accept again -/

/-- C1 (amended): accepting a provisional span replaces the matched level-6
heading with a paragraph node carrying the `"generated"` mark and identical
text; and **provided no other level-6 heading in the document carries the same
text**, a second accept attempt with the same captured text afterwards leaves
the document unchanged and dispatches no transaction (the content-equality
lookup finds no matching level-6 heading).  Without that proviso the claim
fails: see the counterexample. -/
theorem acceptThenAcceptAgain (xs ys : List Block) (b : Block) (t : List Char)
    (hb : matchesSuggestion b t) (hys : ∀ y ∈ ys, ¬ matchesSuggestion y t) :
    handleEditorAction EditorAction.confirm (xs ++ b :: ys) t = xs ++ confirmParagraph t :: ys
    ∧ (confirmParagraph t).kind = BlockKind.paragraph
    ∧ (confirmParagraph t).marks = ["generated"]
    ∧ blockText (confirmParagraph t) = t
    ∧ ((∀ x ∈ xs, ¬ matchesSuggestion x t) →
        handleEditorAction EditorAction.confirm (xs ++ confirmParagraph t :: ys) t
          = xs ++ confirmParagraph t :: ys
        ∧ dispatchesTransaction (xs ++ confirmParagraph t :: ys) t = false) := by
  refine ⟨handleEditorAction_confirm_eq xs ys b t hb hys, rfl, rfl, by simp [confirmParagraph, blockText], ?_⟩
  intro hxs
  have hall : ∀ blk ∈ xs ++ confirmParagraph t :: ys, ¬ matchesSuggestion blk t := by
    intro blk hmem
    rcases List.mem_append.mp hmem with h | h
    · exact hxs blk h
    · rcases List.mem_cons.mp h with h | h
      · subst h
        exact confirmParagraph_no_match t
      · exact hys blk h
  exact ⟨handleEditorAction_no_match EditorAction.confirm _ t hall,
    dispatchesTransaction_no_match _ t hall⟩

/-- C1 counterexample: a document with **two** provisional spans of identical
text `"x"`.  The first accept converts one of them; the second accept attempt
with the same captured text still finds a matching level-6 heading, dispatches,
and changes the document — it is not a no-op. -/
theorem acceptAgain_counterexample :
    handleEditorAction EditorAction.confirm
        (handleEditorAction EditorAction.confirm [h6x, h6x] ['x']) ['x']
      ≠ handleEditorAction EditorAction.confirm [h6x, h6x] ['x'] := by
  decide

/-- Witness: the amended C1 theorem on a one-span document. -/
theorem acceptThenAcceptAgain_witness :
    handleEditorAction EditorAction.confirm [h6x] ['x'] = [confirmParagraph ['x']]
    ∧ handleEditorAction EditorAction.confirm [confirmParagraph ['x']] ['x']
      = [confirmParagraph ['x']]
    ∧ dispatchesTransaction [confirmParagraph ['x']] ['x'] = false := by
  have h := acceptThenAcceptAgain [] [] h6x ['x'] (by decide) (by decide)
  exact ⟨h.1, (h.2.2.2.2 (by decide)).1, (h.2.2.2.2 (by decide)).2⟩

/-! ## C2: reject deletes exactly the matched range -/

/-- C2: if the document contains a provisional (level-6 heading) node whose
text equals the captured text, the reject action deletes exactly the matched
node — the blocks before and after it are byte-identical afterwards; if no
node matches, the document is left entirely unchanged.  (`b` here is the node
the lookup matches: the last matching one in traversal order.) -/
theorem rejectDeletesExactlyMatch (doc : List Block) (t : List Char) :
    ((∀ b ∈ doc, ¬ matchesSuggestion b t) → handleEditorAction EditorAction.delete doc t = doc)
    ∧ (∀ xs b ys, doc = xs ++ b :: ys → matchesSuggestion b t →
        (∀ y ∈ ys, ¬ matchesSuggestion y t) →
        handleEditorAction EditorAction.delete doc t = xs ++ ys) := by
  constructor
  · intro h
    exact handleEditorAction_no_match EditorAction.delete doc t h
  · intro xs b ys hdoc hb hys
    subst hdoc
    exact handleEditorAction_delete_eq xs ys b t hb hys

/-- Witness: rejecting the single span of `[h6x, pMid]` removes exactly it. -/
theorem rejectDeletesExactlyMatch_witness :
    handleEditorAction EditorAction.delete [h6x, pMid] ['x'] = [pMid] :=
  (rejectDeletesExactlyMatch [h6x, pMid] ['x']).2 [] h6x [pMid] rfl (by decide) (by decide)

/-! ## C5: which of several identical spans is matched -/

/-- C5 (amended): when two (or more) provisional nodes carry the same text,
the scan matches the **last** such node encountered during tree traversal
(every match overwrites the recorded range and the traversal continues), and
the accept or reject mutation is applied to that last node's range; any
earlier matching node (`x0` below) is left in place. -/
theorem lastMatchWins (xs zs ys : List Block) (x0 b : Block) (t : List Char)
    (_hx0 : matchesSuggestion x0 t) (hb : matchesSuggestion b t)
    (hys : ∀ y ∈ ys, ¬ matchesSuggestion y t) :
    handleEditorAction EditorAction.confirm (xs ++ x0 :: zs ++ b :: ys) t
      = xs ++ x0 :: zs ++ confirmParagraph t :: ys
    ∧ handleEditorAction EditorAction.delete (xs ++ x0 :: zs ++ b :: ys) t
      = xs ++ x0 :: zs ++ ys := by
  have e1 : xs ++ x0 :: zs ++ b :: ys = (xs ++ x0 :: zs) ++ b :: ys := by
    simp [List.append_assoc]
  have e2 : xs ++ x0 :: zs ++ confirmParagraph t :: ys
      = (xs ++ x0 :: zs) ++ confirmParagraph t :: ys := by
    simp [List.append_assoc]
  have e3 : xs ++ x0 :: zs ++ ys = (xs ++ x0 :: zs) ++ ys := by
    simp [List.append_assoc]
  rw [e1, e2, e3]
  exact ⟨handleEditorAction_confirm_eq (xs ++ x0 :: zs) ys b t hb hys,
    handleEditorAction_delete_eq (xs ++ x0 :: zs) ys b t hb hys⟩

/-- C5 counterexample: with two identical spans `"x"` around a middle
paragraph, reject removes the **last** one — the result differs from removing
the first one, which is what the claim asserts. -/
theorem lastMatchWins_counterexample :
    handleEditorAction EditorAction.delete [h6x, pMid, h6x] ['x'] = [h6x, pMid]
    ∧ handleEditorAction EditorAction.delete [h6x, pMid, h6x] ['x'] ≠ [pMid, h6x] := by
  decide

/-- Witness: the amended C5 theorem on the concrete three-block document. -/
theorem lastMatchWins_witness :
    handleEditorAction EditorAction.confirm [h6x, pMid, h6x] ['x']
      = [h6x, pMid, confirmParagraph ['x']]
    ∧ handleEditorAction EditorAction.delete [h6x, pMid, h6x] ['x'] = [h6x, pMid] :=
  lastMatchWins [] [pMid] [] h6x h6x ['x'] (by decide) (by decide) (by decide)

/-! ## C6: the Q&A round-trip loop -/

theorem getQAGo_zero {α : Type} (oracle : Nat → Option (String × String)) (parseQA : String → α)
    (stringifyQA : α → String) (i : Nat) (msgs : List ChatMessage) :
    getQAGo oracle parseQA stringifyQA 0 i msgs = ([], msgs, 0) := rfl

theorem getQAGo_succ_some {α : Type} (oracle : Nat → Option (String × String))
    (parseQA : String → α) (stringifyQA : α → String) (rem i : Nat) (msgs : List ChatMessage)
    (nm args : String) (h : oracle i = some (nm, args)) :
    getQAGo oracle parseQA stringifyQA (rem + 1) i msgs =
      (parseQA args :: (getQAGo oracle parseQA stringifyQA rem (i + 1)
          (msgs ++ [ChatMessage.assistant (some (nm, args)),
            ChatMessage.functionResult nm (stringifyQA (parseQA args))])).1,
        (getQAGo oracle parseQA stringifyQA rem (i + 1)
          (msgs ++ [ChatMessage.assistant (some (nm, args)),
            ChatMessage.functionResult nm (stringifyQA (parseQA args))])).2.1,
        (getQAGo oracle parseQA stringifyQA rem (i + 1)
          (msgs ++ [ChatMessage.assistant (some (nm, args)),
            ChatMessage.functionResult nm (stringifyQA (parseQA args))])).2.2 + 1) := by
  simp only [getQAGo, h]

theorem getQAGo_succ_none {α : Type} (oracle : Nat → Option (String × String))
    (parseQA : String → α) (stringifyQA : α → String) (rem i : Nat) (msgs : List ChatMessage)
    (h : oracle i = none) :
    getQAGo oracle parseQA stringifyQA (rem + 1) i msgs = ([], msgs, 1) := by
  simp only [getQAGo, h]

theorem qaListSpec_length {α : Type} (oracle : Nat → Option (String × String))
    (parseQA : String → α) : ∀ (i n : Nat), (qaListSpec oracle parseQA i n).length = n
  | _, 0 => rfl
  | i, n + 1 => by simp [qaListSpec, qaListSpec_length oracle parseQA (i + 1) n]

/-- When every one of the next `n` round trips returns a function call, the
loop performs exactly `n` round trips, collects one pair per round, and
appends the two per-round messages in order. -/
theorem getQAGo_all_calls {α : Type} (oracle : Nat → Option (String × String))
    (parseQA : String → α) (stringifyQA : α → String) :
    ∀ (n i : Nat) (msgs : List ChatMessage),
      (∀ j, j < n → (oracle (i + j)).isSome) →
      getQAGo oracle parseQA stringifyQA n i msgs
        = (qaListSpec oracle parseQA i n,
            msgs ++ msgsSpec oracle parseQA stringifyQA i n, n)
  | 0, i, msgs, _ => by simp [getQAGo_zero, qaListSpec, msgsSpec]
  | n + 1, i, msgs, h => by
    have h0 : (oracle i).isSome := by
      have := h 0 (Nat.succ_pos n)
      simpa using this
    rcases Option.isSome_iff_exists.mp h0 with ⟨⟨nm, args⟩, hsome⟩
    rw [getQAGo_succ_some oracle parseQA stringifyQA n i msgs nm args hsome]
    have hrec := getQAGo_all_calls oracle parseQA stringifyQA n (i + 1)
      (msgs ++ [ChatMessage.assistant (some (nm, args)),
        ChatMessage.functionResult nm (stringifyQA (parseQA args))])
      (fun j hj => by
        have := h (j + 1) (Nat.succ_lt_succ hj)
        rw [(by omega : i + 1 + j = i + (j + 1))]
        exact this)
    rw [hrec]
    simp [qaListSpec, msgsSpec, roundMessages, hsome, argsOfCall, List.append_assoc]

/-- When round trip `i + k` is the first to return no function call, the loop
stops there: `k` pairs, `k + 1` round trips. -/
theorem getQAGo_early_stop {α : Type} (oracle : Nat → Option (String × String))
    (parseQA : String → α) (stringifyQA : α → String) :
    ∀ (k n i : Nat) (msgs : List ChatMessage), k < n → oracle (i + k) = none →
      (∀ j, j < k → (oracle (i + j)).isSome) →
      getQAGo oracle parseQA stringifyQA n i msgs
        = (qaListSpec oracle parseQA i k,
            msgs ++ msgsSpec oracle parseQA stringifyQA i k, k + 1)
  | 0, n, i, msgs, hk, hnone, _ => by
    obtain ⟨m, rfl⟩ : ∃ m, n = m + 1 := ⟨n - 1, by omega⟩
    rw [Nat.add_zero] at hnone
    rw [getQAGo_succ_none oracle parseQA stringifyQA m i msgs hnone]
    simp [qaListSpec, msgsSpec]
  | k + 1, n, i, msgs, hk, hnone, hsome => by
    obtain ⟨m, rfl⟩ : ∃ m, n = m + 1 := ⟨n - 1, by omega⟩
    have h0 : (oracle i).isSome := by
      have := hsome 0 (by omega)
      simpa using this
    rcases Option.isSome_iff_exists.mp h0 with ⟨⟨nm, args⟩, hs⟩
    rw [getQAGo_succ_some oracle parseQA stringifyQA m i msgs nm args hs]
    have hrec := getQAGo_early_stop oracle parseQA stringifyQA k m (i + 1)
      (msgs ++ [ChatMessage.assistant (some (nm, args)),
        ChatMessage.functionResult nm (stringifyQA (parseQA args))])
      (by omega)
      (by rw [(by omega : i + 1 + k = i + (k + 1))]; exact hnone)
      (fun j hj => by
        have := hsome (j + 1) (by omega)
        rw [(by omega : i + 1 + j = i + (j + 1))]
        exact this)
    rw [hrec]
    simp [qaListSpec, msgsSpec, roundMessages, hs, argsOfCall, List.append_assoc]

/-- C6: `getQA` issues model round trips strictly sequentially, one structured
record per round trip (the request carries `n: 1` and the callable schema; the
oracle gives round `i`'s optional function call), appending the returned
function-call message plus a function-result message to the message history
before the next round.  If all of the first `N` responses carry a function
call, it performs exactly `N` round trips and returns `N` pairs; if the
response of round `k < N` is the first without a function call, it stops
immediately after `k + 1` round trips with the `k` pairs collected so far. -/
theorem getQA_round_trips {α : Type} (oracle : Nat → Option (String × String))
    (parseQA : String → α) (stringifyQA : α → String) (systemPrompt prompt : String)
    (history : Option (List ChatMessage)) (N : Nat) :
    ((∀ i, i < N → (oracle i).isSome) →
      getQA oracle parseQA stringifyQA systemPrompt prompt history N
        = (qaListSpec oracle parseQA 0 N,
            initialMessages systemPrompt prompt history
              ++ msgsSpec oracle parseQA stringifyQA 0 N, N)
      ∧ (qaListSpec oracle parseQA 0 N).length = N)
    ∧ (∀ k, k < N → oracle k = none → (∀ j, j < k → (oracle j).isSome) →
        getQA oracle parseQA stringifyQA systemPrompt prompt history N
          = (qaListSpec oracle parseQA 0 k,
              initialMessages systemPrompt prompt history
                ++ msgsSpec oracle parseQA stringifyQA 0 k, k + 1)
        ∧ (qaListSpec oracle parseQA 0 k).length = k) := by
  constructor
  · intro h
    exact ⟨getQAGo_all_calls oracle parseQA stringifyQA N 0 _
        (fun j hj => by simpa using h j hj),
      qaListSpec_length oracle parseQA 0 N⟩
  · intro k hk hnone hsome
    exact ⟨getQAGo_early_stop oracle parseQA stringifyQA k N 0 _ hk (by simpa using hnone)
        (fun j hj => by simpa using hsome j hj),
      qaListSpec_length oracle parseQA 0 k⟩

/-- Witness: `getQA` with an oracle that stops after two structured responses,
asked for four pairs: three round trips, two pairs. -/
theorem getQA_round_trips_witness :
    getQA twoCallOracle id id "sys" "prompt" none 4
      = (qaListSpec twoCallOracle id 0 2,
          initialMessages "sys" "prompt" none ++ msgsSpec twoCallOracle id id 0 2, 3)
    ∧ (qaListSpec twoCallOracle id 0 2).length = 2 :=
  (getQA_round_trips twoCallOracle id id "sys" "prompt" none 4).2 2 (by decide) (by decide)
    (by decide)

/-! ## C7: automatic fetch triggering -/

theorem autoFetchGo_cons (r : RenderIn) (rs : List RenderIn) (prev : Option (List Nat)) :
    autoFetchGo (r :: rs) prev =
      ((!(prev == some r.deps)) && r.shouldFetch && !r.dataTruthy)
        :: autoFetchGo rs (some r.deps) := rfl

theorem lastDeps_cons (x : RenderIn) (xs : List RenderIn) (prev : Option (List Nat)) :
    lastDeps (x :: xs) prev = lastDeps xs (some x.deps) := by
  cases xs with
  | nil => rfl
  | cons y ys =>
    unfold lastDeps
    rw [List.getLast?_cons_cons]
    cases hgl : (y :: ys).getLast? with
    | none => simp at hgl
    | some a => rfl

/-- The automatic-fetch decision at the render following the prefix `xs`
(with `prev` the dependency array seen before `xs`, if any). -/
theorem autoFetchGo_get (r : RenderIn) (ys : List RenderIn) :
    ∀ (xs : List RenderIn) (prev : Option (List Nat))
      (h : xs.length < (autoFetchGo (xs ++ r :: ys) prev).length),
      (autoFetchGo (xs ++ r :: ys) prev).get ⟨xs.length, h⟩
        = ((!(lastDeps xs prev == some r.deps)) && r.shouldFetch && !r.dataTruthy)
  | [], prev, h => by simp [autoFetchGo_cons, lastDeps]
  | x :: xs, prev, h => by
    rw [lastDeps_cons]
    have hlt : xs.length < (autoFetchGo (xs ++ r :: ys) (some x.deps)).length := by
      have := autoFetchGo_get r ys xs (some x.deps)
      simp only [List.cons_append, autoFetchGo_cons, List.length_cons] at h
      omega
    have hstep : (autoFetchGo ((x :: xs) ++ r :: ys) prev).get ⟨xs.length + 1, h⟩
        = (autoFetchGo (xs ++ r :: ys) (some x.deps)).get ⟨xs.length, hlt⟩ := by
      simp [autoFetchGo_cons]
    simp only [List.length_cons]
    rw [hstep, autoFetchGo_get r ys xs (some x.deps) hlt]

/-- C7 (amended): the automatic fetch fires at a render iff the effect re-runs
there — on the very first render (`xs = []`, no previous dependency array), or
when the dependency array differs by reference from the previous render's —
**and** the `shouldFetch && !data` guard holds at that render (`shouldFetch`
true and `data` still empty).  In particular it never fires merely because
`data` itself changed: with an unchanged dependency array the decision is
`false` whatever `data` did; and after `data` becomes non-empty, a dependency
change alone no longer fires it (see the counterexample). -/
theorem autoFetch_trigger (xs : List RenderIn) (r : RenderIn) (ys : List RenderIn)
    (h : xs.length < (autoFetchFires (xs ++ r :: ys)).length) :
    (autoFetchFires (xs ++ r :: ys)).get ⟨xs.length, h⟩
      = ((!(lastDeps xs none == some r.deps)) && r.shouldFetch && !r.dataTruthy) :=
  autoFetchGo_get r ys xs none h

/-- C7 counterexample: two renders whose dependency arrays differ by
reference; at the second render `data` is non-empty, and the automatic fetch
does **not** re-run — contradicting "re-runs whenever any element of the
dependencies changes by reference" read unconditionally. -/
theorem autoFetch_counterexample :
    autoFetchFires staleDataTrace = [true, false]
    ∧ (staleDataTrace.get ⟨1, by decide⟩).deps ≠ (staleDataTrace.get ⟨0, by decide⟩).deps := by
  decide

/-- Witness: the amended C7 theorem at the first render of the concrete
trace. -/
theorem autoFetch_trigger_witness :
    (autoFetchFires staleDataTrace).get ⟨0, by decide⟩ = true :=
  autoFetch_trigger [] { deps := [0], shouldFetch := true, dataTruthy := false }
    [{ deps := [1], shouldFetch := true, dataTruthy := true }] (by decide)

/-! ## C8: `fetchData` state discipline -/

/-- C8: in every `fetchData()` run, loading is set and the error is cleared
before the `apiCall` is invoked with the current data as optional seed (the
first three actions, in order); if the call rejects, the error becomes exactly
the generic string `"An error occurred while fetching the data."` — whatever
the failure detail was — and `data` keeps its previous value; and loading is
cleared at the end in both the failure and the success case. -/
theorem fetchData_behavior {T : Type} (truthy : T → Bool) (s0 : ReqState T) :
    (∀ e : String,
      (fetchDataRun truthy s0 (Except.error e)).2
        = [FetchEv.setLoading true, FetchEv.setError none,
            FetchEv.callApi (jsOrUndefined truthy s0.data),
            FetchEv.setError (some "An error occurred while fetching the data."),
            FetchEv.setLoading false]
      ∧ (fetchDataRun truthy s0 (Except.error e)).1.data = s0.data
      ∧ (fetchDataRun truthy s0 (Except.error e)).1.error
          = some "An error occurred while fetching the data."
      ∧ (fetchDataRun truthy s0 (Except.error e)).1.loading = false)
    ∧ (∀ v : T,
      (fetchDataRun truthy s0 (Except.ok v)).2
        = [FetchEv.setLoading true, FetchEv.setError none,
            FetchEv.callApi (jsOrUndefined truthy s0.data),
            FetchEv.setData (some v), FetchEv.setLoading false]
      ∧ (fetchDataRun truthy s0 (Except.ok v)).1.data = some v
      ∧ (fetchDataRun truthy s0 (Except.ok v)).1.loading = false
      ∧ (fetchDataRun truthy s0 (Except.ok v)).1.error = none) := by
  exact ⟨fun e => ⟨rfl, rfl, rfl, rfl⟩, fun v => ⟨rfl, rfl, rfl, rfl⟩⟩

/-! ## C9: event classification -/

theorem isEmpty_false_of_ne_nil' {β : Type} {l : List β} (h : l ≠ []) : l.isEmpty = false := by
  cases l with
  | nil => exact absurd rfl h
  | cons a l => rfl

/-- Every step for which one of the three source guards holds emits exactly
one event. -/
theorem classifyStep_length_one (st : EditStep)
    (h : st.fromPos = st.toPos ∧ st.fromPos ≠ none
      ∨ st.fromPos ≠ st.toPos ∧ st.slice ≠ none) :
    (classifyStep st).length = 1 := by
  unfold classifyStep
  rcases h with ⟨h1, h2⟩ | ⟨h1, h2⟩
  · rw [if_pos ⟨h1, h2⟩]
    rfl
  · rw [if_neg (fun hc => h1 hc.1)]
    cases hsl : st.slice with
    | none => exact absurd hsl h2
    | some l =>
      cases l with
      | nil =>
        rw [if_pos ⟨h1, rfl⟩]
        rfl
      | cons a l' =>
        rw [if_neg (by intro hc; exact absurd hc.2 (by simp [sliceContentSizeZero])),
          if_pos ⟨h1, by simp [sliceContentSizePos]⟩]
        rfl

/-- When every step satisfies a one-event guard, the flattened classification
has one event per step. -/
theorem flatten_length_one :
    ∀ (steps : List EditStep), (∀ st ∈ steps, (classifyStep st).length = 1) →
      ((steps.map classifyStep).flatten).length = steps.length
  | [], _ => rfl
  | st :: sts, h => by
    simp only [List.map_cons, List.flatten_cons, List.length_append, List.length_cons]
    rw [h st (List.mem_cons_self st sts),
      flatten_length_one sts (fun x hx => h x (List.mem_cons_of_mem st hx))]
    omega

/-- C9 (amended): for a document-changing transaction not flagged as a paste,
the logger emits one `key_press` per atomic step **that carries a replaced
range and a replacement slice**: "Input" when the range of the step is empty
(`from = to`); "Backspace or Delete" when the range is non-empty and the
slice is empty; "Input" when the range is non-empty and the slice is
non-empty; a step carrying no slice — a mark addition or removal — emits no
event at all (the guards `step.slice?.content?.size === 0` and `> 0` are both
false on `undefined`).  For a transaction flagged as a paste whose last
step has inserted content that is non-empty **and whose first inserted node has
non-empty text content**, it emits exactly one `paste_action` carrying only the text of that
node.  Without either proviso the claim fails on the code; see
the counterexample. -/
theorem eventClassification (tx : Transaction) (hdoc : tx.docChanged = true) :
    (tx.pasteMeta = false →
      classifyTransaction tx = (tx.steps.map classifyStep).flatten
      ∧ (∀ st ∈ tx.steps,
          (st.fromPos = st.toPos → st.fromPos ≠ none →
            classifyStep st = [⟨"key_press", EvData.keyVal "Input"⟩])
          ∧ (st.fromPos ≠ st.toPos → st.slice = some [] →
            classifyStep st = [⟨"key_press", EvData.keyVal "Backspace or Delete"⟩])
          ∧ (st.fromPos ≠ st.toPos → ∀ l, st.slice = some l → l ≠ [] →
            classifyStep st = [⟨"key_press", EvData.keyVal "Input"⟩])
          ∧ (st.fromPos ≠ st.toPos → st.slice = none → classifyStep st = []))
      ∧ ((∀ st ∈ tx.steps,
            st.fromPos = st.toPos ∧ st.fromPos ≠ none
              ∨ st.fromPos ≠ st.toPos ∧ st.slice ≠ none) →
          (classifyTransaction tx).length = tx.steps.length))
    ∧ (tx.pasteMeta = true → ∀ lastStep l node,
        tx.steps.getLast? = some lastStep → lastStep.slice = some l → l.head? = some node →
        node.textContent ≠ [] →
        classifyTransaction tx = [⟨"paste_action", EvData.textVal node.textContent⟩]) := by
  have hcl : tx.pasteMeta = false →
      classifyTransaction tx = (tx.steps.map classifyStep).flatten := by
    intro hpaste
    unfold classifyTransaction
    rw [if_pos hdoc, if_neg (by simp [hpaste])]
  constructor
  · intro hpaste
    refine ⟨hcl hpaste, ?_, ?_⟩
    · intro st _
      refine ⟨?_, ?_, ?_, ?_⟩
      · intro h1 h2
        unfold classifyStep
        rw [if_pos ⟨h1, h2⟩]
      · intro h1 h2
        unfold classifyStep
        rw [if_neg (fun hc => h1 hc.1), if_pos ⟨h1, by rw [h2]; rfl⟩]
      · intro h1 l h2 h3
        have hz : sliceContentSizeZero st.slice = false := by
          rw [h2]
          simp [sliceContentSizeZero, isEmpty_false_of_ne_nil' h3]
        have hp : sliceContentSizePos st.slice = true := by
          rw [h2]
          simp [sliceContentSizePos, isEmpty_false_of_ne_nil' h3]
        unfold classifyStep
        rw [if_neg (fun hc => h1 hc.1),
          if_neg (by intro hc; rw [hz] at hc; exact absurd hc.2 (by simp)),
          if_pos ⟨h1, hp⟩]
      · intro h1 h2
        have hz : sliceContentSizeZero st.slice = false := by rw [h2]; rfl
        have hp : sliceContentSizePos st.slice = false := by rw [h2]; rfl
        unfold classifyStep
        rw [if_neg (fun hc => h1 hc.1),
          if_neg (by intro hc; rw [hz] at hc; exact absurd hc.2 (by simp)),
          if_neg (by intro hc; rw [hp] at hc; exact absurd hc.2 (by simp))]
    · intro hall
      rw [hcl hpaste]
      exact flatten_length_one tx.steps
        (fun st hst => classifyStep_length_one st (hall st hst))
  · intro hpaste lastStep l node hlast hsl hhead hne
    have hlne : l ≠ [] := by
      intro hn
      rw [hn] at hhead
      exact absurd hhead (by simp)
    unfold classifyTransaction
    rw [if_pos hdoc, if_pos hpaste, hlast]
    simp [hsl, hhead, isEmpty_false_of_ne_nil' hlne, isEmpty_false_of_ne_nil' hne]

/-- C9 counterexample, both failing cases of the claim: (a) a paste
transaction whose last step inserts one node (non-empty inserted content)
with empty text — the claim requires exactly one `paste_action`, the code
emits no event; (b) a document-changing, non-paste mark-step transaction
(e.g. bold over a range; it carries no slice) — the claim requires one
`key_press` for the step, the code emits no event. -/
theorem eventClassification_counterexample :
    classifyTransaction emptyTextPaste = []
    ∧ emptyTextPaste.docChanged = true
    ∧ emptyTextPaste.pasteMeta = true
    ∧ (emptyTextPaste.steps.getLast?).map (fun s => s.slice.map List.length) = some (some 1)
    ∧ classifyTransaction txMark = []
    ∧ txMark.docChanged = true
    ∧ txMark.pasteMeta = false
    ∧ txMark.steps.length = 1 := by
  decide

/-- Witness: the amended C9 theorem on a three-step typing transaction and on
a paste of `"hi"`. -/
theorem eventClassification_witness :
    classifyTransaction txKeys
      = [⟨"key_press", EvData.keyVal "Input"⟩,
          ⟨"key_press", EvData.keyVal "Backspace or Delete"⟩,
          ⟨"key_press", EvData.keyVal "Input"⟩]
    ∧ classifyTransaction txPaste = [⟨"paste_action", EvData.textVal ['h', 'i']⟩] := by
  have h1 := (eventClassification txKeys rfl).1 rfl
  have h2 := (eventClassification txPaste rfl).2 rfl
    { fromPos := some 0, toPos := some 0, slice := some [{ textContent := ['h', 'i'] }] }
    [{ textContent := ['h', 'i'] }] { textContent := ['h', 'i'] } rfl rfl rfl (by decide)
  exact ⟨by rw [h1.1]; rfl, h2⟩

/-! ## C10: event tagging and gating -/

/-- C10: every event record the logger forwards has `study_session = true`
(hardcoded in `makeEvent`, regardless of any host study-session flag — the
hook does not even receive one) and carries the current user, figure and
description identifiers and the condition label; and no handler is installed
at all — so no event is ever emitted — while the user id, figure id or
description id is missing (absent or `0`, which is falsy) or the editor
instance is missing. -/
theorem eventLogger_tagging (uid fid did : Option Nat) (ed : Bool) (cond : String) :
    ((uid = none ∨ uid = some 0 ∨ fid = none ∨ fid = some 0 ∨ did = none ∨ did = some 0
        ∨ ed = false) →
      useEventLogger uid fid did ed cond = none)
    ∧ (∀ h, useEventLogger uid fid did ed cond = some h →
        ∀ tx ev, ev ∈ h tx →
          ev.study_session = true ∧ some ev.user_id = uid ∧ some ev.figure_id = fid
          ∧ some ev.description_id = did ∧ ev.condition = cond) := by
  constructor
  · intro hmiss
    cases uid with
    | none => rfl
    | some u =>
      cases fid with
      | none => rfl
      | some f =>
        cases did with
        | none => rfl
        | some d =>
          simp only [useEventLogger]
          have hcond : ¬(u ≠ 0 ∧ f ≠ 0 ∧ d ≠ 0 ∧ ed = true) := by
            rintro ⟨h1, h2, h3, h4⟩
            rcases hmiss with h | h | h | h | h | h | h <;> simp_all
          rw [if_neg hcond]
  · intro h hsome tx ev hmem
    cases uid with
    | none => exact absurd hsome (by simp [useEventLogger])
    | some u =>
      cases fid with
      | none => exact absurd hsome (by simp [useEventLogger])
      | some f =>
        cases did with
        | none => exact absurd hsome (by simp [useEventLogger])
        | some d =>
          simp only [useEventLogger] at hsome
          by_cases hg : u ≠ 0 ∧ f ≠ 0 ∧ d ≠ 0 ∧ ed = true
          · rw [if_pos hg] at hsome
            injection hsome with hfun
            subst hfun
            rcases List.mem_map.mp hmem with ⟨e, _, rfl⟩
            exact ⟨rfl, rfl, rfl, rfl, rfl⟩
          · rw [if_neg hg] at hsome
            exact absurd hsome (by simp)

/-- Witness: gating on a falsy user id and on a missing editor, and the
hardcoded `study_session` tag on an event produced by the installed handler. -/
theorem eventLogger_tagging_witness :
    useEventLogger (some 0) (some 2) (some 3) true "full" = none
    ∧ useEventLogger (some 1) (some 2) (some 3) false "full" = none
    ∧ (makeEvent 1 2 3 "full" ⟨"paste_action", EvData.textVal ['h', 'i']⟩).study_session
        = true := by
  refine ⟨(eventLogger_tagging (some 0) (some 2) (some 3) true "full").1 (by simp),
    (eventLogger_tagging (some 1) (some 2) (some 3) false "full").1 (by simp), ?_⟩
  exact ((eventLogger_tagging (some 1) (some 2) (some 3) true "full").2
    (fun tx => (classifyTransaction tx).map (makeEvent 1 2 3 "full")) rfl txPaste
    (makeEvent 1 2 3 "full" ⟨"paste_action", EvData.textVal ['h', 'i']⟩) (by decide)).1

end FigurA11y
